import Mathlib

/-!
Verification of the AOSS policy-as-engine compliance layer.

The repository ships the configuration UI (React components) and documents
the decision engine in its README and design notes; the engine itself
(normalizer, fact extractor, constraint evaluator, decision recorder) is
specified but its backend source is not part of the checked-in tree, so the
definitions below for those components are modelled from the specification.
The UI components (rule customization, SRE-safety rule form) are embedded
directly from the JSX source.
-/

/-- Decision outcome of the engine, from the spec data model. -/
inductive Outcome where
  | ALLOWED
  | REQUIRES_APPROVAL
  | VIOLATION
deriving DecidableEq

/-- The four policy layers. -/
inductive Layer where
  | REGULATORY
  | ORGANIZATIONAL
  | SAFETY
  | ADVERSARIAL
deriving DecidableEq

/-- Effect of a policy rule. -/
inductive Effect where
  | FORBID
  | REQUIRE_APPROVAL
  | ALLOW_EXCEPTION
deriving DecidableEq

/-- Severity order used to combine outcomes:
VIOLATION > REQUIRES_APPROVAL > ALLOWED. -/
def severity : Outcome → Nat
  | Outcome.ALLOWED => 0
  | Outcome.REQUIRES_APPROVAL => 1
  | Outcome.VIOLATION => 2

/-- Modelled from the spec: combine two outcomes by severity (the engine
keeps the more severe one). -/
def combine (a b : Outcome) : Outcome :=
  if severity a < severity b then b else a

/-- Modelled from the spec: fold a list of outcomes down to the most severe
one, starting from ALLOWED (the verdict of an empty list). -/
def combineAll (l : List Outcome) : Outcome :=
  l.foldl combine Outcome.ALLOWED

/-- Flat fact mapping produced by the fact extractor. -/
def Facts : Type := List (String × String)

/-- First binding of a fact field in a fact mapping. -/
def lookupFact : Facts → String → Option String
  | [], _ => none
  | (k, v) :: rest, f => if k = f then some v else lookupFact rest f

/-- Structured boolean predicate over fact fields, the closed set of
tagged variants named in the design notes, combined by conjunction and
disjunction. -/
inductive RulePred where
  | factEq (field value : String)
  | patternMatch (field pat : String)
  | pand (p q : RulePred)
  | por (p q : RulePred)
  | ptrue
deriving DecidableEq

/-- Character-list membership test used by the substring matcher. -/
def isPrefixChars : List Char → List Char → Bool
  | [], _ => true
  | _ :: _, [] => false
  | a :: as, b :: bs => a == b && isPrefixChars as bs

/-- Substring search over character lists. -/
def isInfixChars : List Char → List Char → Bool
  | p, [] => p.isEmpty
  | p, b :: bs => isPrefixChars p (b :: bs) || isInfixChars p bs

/-- Substring test on strings. -/
def containsStr (s pat : String) : Bool :=
  isInfixChars pat.toList s.toList

/-- Strict evaluation of a predicate over a fact mapping; a reference to a
fact field that is absent from the mapping makes the whole predicate
malformed (returns none). -/
def evalPred : RulePred → Facts → Option Bool
  | RulePred.factEq f v, facts => (lookupFact facts f).map (fun x => x == v)
  | RulePred.patternMatch f pat, facts => (lookupFact facts f).map (fun x => containsStr x pat)
  | RulePred.pand p q, facts =>
      match evalPred p facts, evalPred q facts with
      | some a, some b => some (a && b)
      | _, _ => none
  | RulePred.por p q, facts =>
      match evalPred p facts, evalPred q facts with
      | some a, some b => some (a || b)
      | _, _ => none
  | RulePred.ptrue, _ => some true

/-- The fact fields a predicate references (its fact set). -/
def predFields : RulePred → List String
  | RulePred.factEq f _ => [f]
  | RulePred.patternMatch f _ => [f]
  | RulePred.pand p q => predFields p ++ predFields q
  | RulePred.por p q => predFields p ++ predFields q
  | RulePred.ptrue => []

/-- One versioned policy rule (spec data model; the optional scope is
folded into the predicate as a conjunct, as the design notes allow). -/
structure PolicyRule where
  id : String
  layer : Layer
  predicate : RulePred
  effect : Effect
deriving DecidableEq

/-- Modelled from the spec: whether a rule fires on a fact mapping.
A malformed predicate (undefined fact reference) fails closed: FORBID and
REQUIRE_APPROVAL rules always fire, ALLOW_EXCEPTION rules never fire. -/
def fires (r : PolicyRule) (facts : Facts) : Bool :=
  match evalPred r.predicate facts with
  | some b => b
  | none => !(decide (r.effect = Effect.ALLOW_EXCEPTION))

/-- Boolean membership for strings. -/
def memStr (x : String) (l : List String) : Bool :=
  l.any (fun y => y == x)

/-- Boolean set inclusion for string lists. -/
def subsetStr (a b : List String) : Bool :=
  a.all (fun x => memStr x b)

/-- Boolean set equality for string lists (exact fact-set equality). -/
def setEqStr (a b : List String) : Bool :=
  subsetStr a b && subsetStr b a

/-- Modelled from the spec: an ALLOW_EXCEPTION rule suppresses a FORBID
rule only when it fires and targets exactly the same fact set. -/
def suppresses (e f : PolicyRule) (facts : Facts) : Bool :=
  decide (e.effect = Effect.ALLOW_EXCEPTION) && fires e facts &&
    setEqStr (predFields e.predicate) (predFields f.predicate)

/-- Modelled from the spec: the verdict of one layer on one sub-action
(layerVerdict below). If any FORBID rule of the layer fires with no
same-layer ALLOW_EXCEPTION firing on the same fact set, the layer returns
VIOLATION; else if any REQUIRE_APPROVAL rule fires, REQUIRES_APPROVAL;
else ALLOWED. forbidCond is the unsuppressed-forbid condition. -/
def forbidCond (L : Layer) (rules : List PolicyRule) (facts : Facts) : Bool :=
  (rules.filter (fun r => decide (r.layer = L))).any
    (fun f => decide (f.effect = Effect.FORBID) && fires f facts &&
      !((rules.filter (fun r => decide (r.layer = L))).any
          (fun e => suppresses e f facts)))

def approvalCond (L : Layer) (rules : List PolicyRule) (facts : Facts) : Bool :=
  (rules.filter (fun r => decide (r.layer = L))).any
    (fun r => decide (r.effect = Effect.REQUIRE_APPROVAL) && fires r facts)

def layerVerdict (L : Layer) (rules : List PolicyRule) (facts : Facts) : Outcome :=
  if forbidCond L rules facts then Outcome.VIOLATION
  else if approvalCond L rules facts then Outcome.REQUIRES_APPROVAL
  else Outcome.ALLOWED

/-- The four layers, in evaluation order. -/
def allLayers : List Layer :=
  [Layer.REGULATORY, Layer.ORGANIZATIONAL, Layer.SAFETY, Layer.ADVERSARIAL]

/-- Cross-layer combination for one sub-action: most severe of the four
per-layer verdicts. -/
def combinePerLayer (v : Layer → Outcome) : Outcome :=
  combineAll (allLayers.map v)

/-- Verdict of the evaluator on one sub-action. -/
def subActionVerdict (rules : List PolicyRule) (facts : Facts) : Outcome :=
  combinePerLayer (fun L => layerVerdict L rules facts)

lemma combine_eq_or (a b : Outcome) : combine a b = a ∨ combine a b = b := by
  unfold combine
  split
  · right; rfl
  · left; rfl

lemma severity_le_combine_left (a b : Outcome) :
    severity a ≤ severity (combine a b) := by
  unfold combine
  split <;> omega

lemma severity_le_combine_right (a b : Outcome) :
    severity b ≤ severity (combine a b) := by
  unfold combine
  split <;> omega

lemma combine_violation_left (b : Outcome) :
    combine Outcome.VIOLATION b = Outcome.VIOLATION := by
  cases b <;> decide

lemma combine_violation_right (a : Outcome) :
    combine a Outcome.VIOLATION = Outcome.VIOLATION := by
  cases a <;> decide

lemma foldl_combine_mem (l : List Outcome) :
    ∀ a : Outcome, l.foldl combine a = a ∨ l.foldl combine a ∈ l := by
  induction l with
  | nil => intro a; left; rfl
  | cons b t ih =>
      intro a
      simp only [List.foldl_cons]
      rcases ih (combine a b) with h | h
      · rcases combine_eq_or a b with hc | hc
        · left; rw [h, hc]
        · right; rw [h, hc]; exact List.mem_cons_self b t
      · right; exact List.mem_cons_of_mem b h

lemma severity_le_foldl_init (l : List Outcome) :
    ∀ a : Outcome, severity a ≤ severity (l.foldl combine a) := by
  induction l with
  | nil => intro a; exact Nat.le_refl _
  | cons b t ih =>
      intro a
      simp only [List.foldl_cons]
      exact Nat.le_trans (severity_le_combine_left a b) (ih (combine a b))

lemma severity_le_foldl_mem (l : List Outcome) :
    ∀ (a o : Outcome), o ∈ l → severity o ≤ severity (l.foldl combine a) := by
  induction l with
  | nil => intro a o h; cases h
  | cons b t ih =>
      intro a o h
      simp only [List.foldl_cons]
      rcases List.mem_cons.mp h with h1 | h1
      · subst h1
        exact Nat.le_trans (severity_le_combine_right a o) (severity_le_foldl_init t (combine a o))
      · exact ih (combine a b) o h1

lemma foldl_combine_violation_init (l : List Outcome) :
    l.foldl combine Outcome.VIOLATION = Outcome.VIOLATION := by
  induction l with
  | nil => rfl
  | cons b t ih => simp only [List.foldl_cons, combine_violation_left]; exact ih

lemma foldl_combine_violation_mem (l : List Outcome) :
    ∀ a : Outcome, Outcome.VIOLATION ∈ l → l.foldl combine a = Outcome.VIOLATION := by
  induction l with
  | nil => intro a h; cases h
  | cons b t ih =>
      intro a h
      simp only [List.foldl_cons]
      rcases List.mem_cons.mp h with h1 | h1
      · rw [← h1, combine_violation_right]
        exact foldl_combine_violation_init t
      · exact ih (combine a b) h1

lemma severity_eq_zero (o : Outcome) (h : severity o = 0) : o = Outcome.ALLOWED := by
  cases o
  · rfl
  · simp [severity] at h
  · simp [severity] at h

lemma combineAll_mem (l : List Outcome) (h : l ≠ []) : combineAll l ∈ l := by
  rcases foldl_combine_mem l Outcome.ALLOWED with h1 | h1
  · cases l with
    | nil => exact absurd rfl h
    | cons b t =>
        have hb : severity b ≤ severity ((b :: t).foldl combine Outcome.ALLOWED) :=
          severity_le_foldl_mem (b :: t) Outcome.ALLOWED b (List.mem_cons_self b t)
        unfold combineAll
        rw [h1] at hb ⊢
        have hb0 : severity b = 0 := Nat.le_antisymm hb (Nat.zero_le _)
        rw [← severity_eq_zero b hb0]
        exact List.mem_cons_self b t
  · exact h1

lemma combineAll_most_severe (l : List Outcome) (o : Outcome) (h : o ∈ l) :
    severity o ≤ severity (combineAll l) :=
  severity_le_foldl_mem l Outcome.ALLOWED o h

lemma combineAll_violation (l : List Outcome) (h : Outcome.VIOLATION ∈ l) :
    combineAll l = Outcome.VIOLATION :=
  foldl_combine_violation_mem l Outcome.ALLOWED h

lemma mem_allLayers (L : Layer) : L ∈ allLayers := by
  cases L <;> simp [allLayers]

/-- Claim C1: for every assignment of per-layer verdicts, the cross-layer
combination is the most severe verdict under
VIOLATION > REQUIRES_APPROVAL > ALLOWED, and VIOLATION is absorbing:
a single violating layer forces the combined verdict to VIOLATION
regardless of every other layer. -/
theorem crossLayer_combination_most_severe (v : Layer → Outcome) :
    (∃ L : Layer, combinePerLayer v = v L) ∧
    (∀ L : Layer, severity (v L) ≤ severity (combinePerLayer v)) ∧
    (∀ L : Layer, v L = Outcome.VIOLATION →
      combinePerLayer v = Outcome.VIOLATION) := by
  refine ⟨?_, ?_, ?_⟩
  · have hne : allLayers.map v ≠ [] := by simp [allLayers]
    have hm := combineAll_mem (allLayers.map v) hne
    rcases List.mem_map.mp hm with ⟨L, _, hL⟩
    exact ⟨L, hL.symm⟩
  · intro L
    exact combineAll_most_severe (allLayers.map v) (v L)
      (List.mem_map.mpr ⟨L, mem_allLayers L, rfl⟩)
  · intro L hL
    exact combineAll_violation (allLayers.map v)
      (List.mem_map.mpr ⟨L, mem_allLayers L, hL⟩)

/-- A concrete verdict assignment where only the SAFETY layer violates. -/
def onlySafetyViolates : Layer → Outcome := fun L =>
  match L with
  | Layer.SAFETY => Outcome.VIOLATION
  | _ => Outcome.ALLOWED

/-- Witness for claim C1 at a concrete assignment. -/
theorem crossLayer_combination_most_severe_witness :
    combinePerLayer onlySafetyViolates = Outcome.VIOLATION :=
  (crossLayer_combination_most_severe onlySafetyViolates).2.2 Layer.SAFETY rfl

/-- Single-quote character (written by code to keep the embedding plain). -/
def squote : Char := Char.ofNat 39

/-- Double-quote character. -/
def dquote : Char := Char.ofNat 34

/-- Whitespace test used by the normalizer. -/
def isSpaceChar (c : Char) : Bool := c == ' ' || c == '\t'

/-- Drop leading whitespace. -/
def dropSpaces (l : List Char) : List Char := l.dropWhile isSpaceChar

/-- Trim whitespace at both ends of a character list. -/
def trimChars (l : List Char) : List Char :=
  (dropSpaces (dropSpaces l).reverse).reverse

/-- Trim whitespace at both ends of a string. -/
def trimStr (s : String) : String := String.mk (trimChars s.toList)

/-- Modelled from the spec: split a command string on the chain operators
(two ampersands, two vertical bars, one vertical bar, semicolon) while
respecting single and double quoting; quote state 0 is unquoted, 1 single,
2 double. Returns none when a quote is left unterminated (unparseable
quoting). -/
def splitChainAux : List Char → Nat → List Char → List String → Option (List String)
  | [], qs, acc, res =>
      if qs == 0 then some ((String.mk acc.reverse :: res).reverse) else none
  | '&' :: '&' :: rest, 0, acc, res =>
      splitChainAux rest 0 [] (String.mk acc.reverse :: res)
  | '|' :: '|' :: rest, 0, acc, res =>
      splitChainAux rest 0 [] (String.mk acc.reverse :: res)
  | '|' :: rest, 0, acc, res =>
      splitChainAux rest 0 [] (String.mk acc.reverse :: res)
  | ';' :: rest, 0, acc, res =>
      splitChainAux rest 0 [] (String.mk acc.reverse :: res)
  | c :: rest, qs, acc, res =>
      if qs == 0 then
        if c == squote then splitChainAux rest 1 (c :: acc) res
        else if c == dquote then splitChainAux rest 2 (c :: acc) res
        else splitChainAux rest 0 (c :: acc) res
      else if qs == 1 then
        if c == squote then splitChainAux rest 0 (c :: acc) res
        else splitChainAux rest 1 (c :: acc) res
      else
        if c == dquote then splitChainAux rest 0 (c :: acc) res
        else splitChainAux rest 2 (c :: acc) res

/-- Chain splitting entry point. -/
def splitChain (s : String) : Option (List String) :=
  splitChainAux s.toList 0 [] []

/-- Characters after the first comment marker, if any. -/
def afterHash : List Char → Option (List Char)
  | [] => none
  | c :: rest => if c == '#' then some rest else afterHash rest

/-- Modelled from the spec: a payload hidden behind a shell comment marker
is lifted out as its own sub-action text. -/
def commentPayloads (s : String) : List String :=
  match afterHash s.toList with
  | none => []
  | some tail =>
      let p := String.mk (trimChars tail)
      if p == "" then [] else [p]

/-- Base64 alphabet test. -/
def isB64Char (c : Char) : Bool :=
  c.isAlphanum || c == '+' || c == '/'

/-- Drop trailing padding characters. -/
def dropPad (l : List Char) : List Char :=
  (l.reverse.dropWhile (fun c => c == '=')).reverse

/-- Base64-looking token: nonempty, length a multiple of 4, at most two
padding characters, alphabet-restricted body. -/
def b64Shape (l : List Char) : Bool :=
  let body := dropPad l
  decide (4 ≤ l.length) && l.length % 4 == 0 &&
    decide (l.length - body.length ≤ 2) && body.all isB64Char

/-- Six-bit value of one base64 character (padding counts as zero). -/
def b64Val (c : Char) : Nat :=
  if c.isUpper then c.toNat - 65
  else if c.isLower then c.toNat - 71
  else if c.isDigit then c.toNat + 4
  else if c == '+' then 62
  else if c == '/' then 63
  else 0

/-- Decode base64 character groups of four into byte values. -/
def b64DecodeAux : List Char → List Nat
  | c1 :: c2 :: c3 :: c4 :: rest =>
      let n := b64Val c1 * 262144 + b64Val c2 * 4096 + b64Val c3 * 64 + b64Val c4
      if c3 == '=' then [n / 65536]
      else if c4 == '=' then [n / 65536, (n / 256) % 256]
      else (n / 65536) :: ((n / 256) % 256) :: (n % 256) :: b64DecodeAux rest
  | _ => []

/-- Modelled from the spec: attempt to decode a base64-looking token; the
decode is plausible only when it yields nonempty printable ASCII. -/
def tryDecodeB64 (t : String) : Option String :=
  let l := t.toList
  if b64Shape l then
    let bs := b64DecodeAux l
    if !bs.isEmpty && bs.all (fun b => decide (32 ≤ b) && decide (b ≤ 126)) then
      some (String.mk (bs.map Char.ofNat))
    else none
  else none

/-- Split a string into whitespace-separated tokens. -/
def wordsAux : List Char → List Char → List (List Char)
  | [], acc => if acc.isEmpty then [] else [acc.reverse]
  | c :: rest, acc =>
      if isSpaceChar c then
        if acc.isEmpty then wordsAux rest [] else acc.reverse :: wordsAux rest []
      else wordsAux rest (c :: acc)

/-- Whitespace-separated tokens of a string. -/
def wordsOf (s : String) : List String :=
  (wordsAux s.toList []).map String.mk

/-- Plausibly decoded base64 payloads among the tokens of a sub-action. -/
def decodedTokens (s : String) : List String :=
  (wordsOf s).filterMap tryDecodeB64

/-- Modelled from the spec: widen one sub-action text by evaluation-only
additions — the text itself, any comment-hidden payload, and any decoded
base64 payload re-widened up to the remaining recursion depth. No
transformation removes a sub-action. -/
def widen : Nat → String → List String
  | 0, s => s :: commentPayloads s
  | Nat.succ d, s =>
      s :: (commentPayloads s ++ ((decodedTokens s).map (widen d)).flatten)

/-- Widen every chain piece. -/
def widenAll (d : Nat) : List String → List String
  | [] => []
  | p :: rest => widen d p ++ widenAll d rest

/-- Fixed recursion depth bounding adversarial base64 nesting. -/
def normDepth : Nat := 3

/-- Modelled from the spec: the Normalizer. An empty raw text normalizes to
zero sub-actions; unparseable quoting degrades to the whole raw string as
one literal sub-action; otherwise the chain pieces (trimmed, empty pieces
dropped, falling back to the raw string when nothing remains) are each
widened by comment extraction and base64 decoding. This doc describes
normalizeAction below; fallbackPieces is its piece-selection step. -/
def fallbackPieces (raw : String) (ps : List String) : List String :=
  if ((ps.map trimStr).filter (fun p => !(p == ""))).isEmpty then [raw]
  else (ps.map trimStr).filter (fun p => !(p == ""))

def normalizeAction (raw : String) : List String :=
  if raw == "" then []
  else
    match splitChain raw with
    | none => [raw]
    | some ps => widenAll normDepth (fallbackPieces raw ps)

/-- Externally supplied evaluation context (injected, never fetched). -/
structure RequestContext where
  freeze_windows : List (Nat × Nat)
  incidents : List String
deriving DecidableEq

/-- The caller's proposed action (spec data model). -/
structure ActionRequest where
  role : String
  user_id : String
  service : String
  environment : String
  resource : String
  raw_text : String
  requested_at : Nat
  declared_risk : String
  context : RequestContext
deriving DecidableEq

/-- Day of week derived from an epoch-second timestamp. -/
def dayOfWeek (t : Nat) : String :=
  match (t / 86400 + 4) % 7 with
  | 0 => "SUNDAY"
  | 1 => "MONDAY"
  | 2 => "TUESDAY"
  | 3 => "WEDNESDAY"
  | 4 => "THURSDAY"
  | 5 => "FRIDAY"
  | _ => "SATURDAY"

/-- Whether a timestamp falls inside any supplied freeze window. -/
def inFreezeWindow (ws : List (Nat × Nat)) (t : Nat) : Bool :=
  ws.any (fun w => decide (w.1 ≤ t) && decide (t ≤ w.2))

/-- Render a boolean as a fact value. -/
def boolFact (b : Bool) : String := if b then "true" else "false"

/-- Modelled from the spec: keyword classifier for the action kind of one
sub-action text. -/
def classifyActionKind (s : String) : String :=
  if containsStr s "deploy" then "DEPLOY"
  else if containsStr s "rm -rf" || containsStr s "rm-rf" || containsStr s "rm " ||
          containsStr s "delete" || containsStr s "DELETE" then "DELETE"
  else if containsStr s "restart" then "RESTART"
  else if containsStr s "scale" then "SCALE"
  else if containsStr s "echo" || containsStr s "cat " || containsStr s "ls" ||
          containsStr s "read" then "READ"
  else "UNKNOWN"

/-- Modelled from the spec: the Fact Extractor — a pure function of the
request (with its injected context) and one sub-action text. -/
def extractFacts (req : ActionRequest) (sub : String) : Facts :=
  [("role", req.role),
   ("user_id", req.user_id),
   ("service", req.service),
   ("environment", req.environment),
   ("resource", req.resource),
   ("declared_risk", req.declared_risk),
   ("day_of_week", dayOfWeek req.requested_at),
   ("is_within_freeze_window",
     boolFact (inFreezeWindow req.context.freeze_windows req.requested_at)),
   ("has_active_incident", boolFact (!req.context.incidents.isEmpty)),
   ("action_kind", classifyActionKind sub),
   ("command", sub)]

/-- Modelled from the spec: whole-request evaluation — normalize, evaluate
each sub-action, and aggregate to the most severe outcome. -/
def evaluateRequest (rules : List PolicyRule) (req : ActionRequest) : Outcome :=
  combineAll ((normalizeAction req.raw_text).map
    (fun sub => subActionVerdict rules (extractFacts req sub)))

lemma fallbackPieces_ne_nil (raw : String) (ps : List String) :
    fallbackPieces raw ps ≠ [] := by
  unfold fallbackPieces
  split
  · simp
  · next h =>
      intro hnil
      apply h
      rw [hnil]
      rfl

lemma widen_ne_nil (d : Nat) (s : String) : widen d s ≠ [] := by
  cases d <;> simp [widen]

lemma widenAll_ne_nil (d : Nat) (ps : List String) (h : ps ≠ []) :
    widenAll d ps ≠ [] := by
  cases ps with
  | nil => exact absurd rfl h
  | cons p rest =>
      simp only [widenAll]
      intro hnil
      rcases List.append_eq_nil.mp hnil with ⟨h1, _⟩
      exact widen_ne_nil d p h1

lemma widen_mem_self (d : Nat) (s : String) : s ∈ widen d s := by
  cases d <;> simp [widen]

lemma widenAll_mem (d : Nat) (p : String) (ps : List String) (h : p ∈ ps) :
    p ∈ widenAll d ps := by
  induction ps with
  | nil => cases h
  | cons q rest ih =>
      simp only [widenAll]
      rcases List.mem_cons.mp h with h1 | h1
      · subst h1
        exact List.mem_append_left _ (widen_mem_self d p)
      · exact List.mem_append_right _ (ih h1)

lemma normalizeAction_ne_nil (raw : String) (h : raw ≠ "") :
    normalizeAction raw ≠ [] := by
  unfold normalizeAction
  have hb : (raw == "") = false := beq_eq_false_iff_ne.mpr h
  simp only [hb, Bool.false_eq_true, if_false]
  rcases h2 : splitChain raw with _ | ps
  · simp
  · exact widenAll_ne_nil normDepth (fallbackPieces raw ps) (fallbackPieces_ne_nil raw ps)

/-- Claim C4 (counterexample): the empty raw text normalizes to zero
sub-actions, so normalization does not produce at least one sub-action for
every input. -/
theorem normalizer_empty_input_counterexample :
    ¬ (1 ≤ (normalizeAction "").length) := by decide

/-- Claim C4 (amended): every non-empty input normalizes to at least one
sub-action; widening transformations (comment extraction, base64 decoding)
only add sub-actions and never drop the original text; unparseable quoting
degrades to the whole raw string as one literal sub-action; and a request
with zero sub-actions arises only from empty raw text. -/
theorem normalizer_monotone_widening :
    (∀ raw : String, raw ≠ "" → 1 ≤ (normalizeAction raw).length) ∧
    (∀ (d : Nat) (s : String), s ∈ widen d s) ∧
    (∀ (d : Nat) (p : String) (ps : List String), p ∈ ps → p ∈ widenAll d ps) ∧
    (∀ raw : String, splitChain raw = none → normalizeAction raw = [raw]) ∧
    (∀ raw : String, normalizeAction raw = [] → raw = "") := by
  refine ⟨?_, widen_mem_self, widenAll_mem, ?_, ?_⟩
  · intro raw h
    exact List.length_pos.mpr (normalizeAction_ne_nil raw h)
  · intro raw h
    have hne : raw ≠ "" := by
      intro he
      rw [he] at h
      exact absurd h (by decide)
    unfold normalizeAction
    have hb : (raw == "") = false := beq_eq_false_iff_ne.mpr hne
    simp only [hb, Bool.false_eq_true, if_false, h]
  · intro raw h
    by_contra hne
    exact normalizeAction_ne_nil raw hne h

/-- A raw text with an unterminated single quote (built from characters to
stay literal). -/
def unterminatedQuote : String := "echo " ++ String.mk [squote] ++ "oops"

/-- Witness for claim C4 at concrete inputs. -/
theorem normalizer_monotone_widening_witness :
    (1 ≤ (normalizeAction "ls -la").length) ∧
    "ls -la" ∈ widen 2 "ls -la" ∧
    normalizeAction unterminatedQuote = [unterminatedQuote] ∧
    ("" : String) = "" :=
  ⟨normalizer_monotone_widening.1 "ls -la" (by decide),
   normalizer_monotone_widening.2.1 2 "ls -la",
   normalizer_monotone_widening.2.2.2.1 unterminatedQuote (by decide),
   rfl⟩

/-- The destructive-command rule used by the chain-propagation scenario. -/
def chainRules : List PolicyRule :=
  [{ id := "SAFE-001", layer := Layer.SAFETY,
     predicate := RulePred.factEq "action_kind" "DELETE",
     effect := Effect.FORBID }]

/-- The chained request of the adversarial test corpus: a safe command
followed by a destructive one. -/
def chainReq : ActionRequest :=
  { role := "operator", user_id := "u1", service := "core-api",
    environment := "prod", resource := "server-1",
    raw_text := "echo hello && rm -rf /", requested_at := 86400,
    declared_risk := "LOW",
    context := { freeze_windows := [], incidents := [] } }

/-- Claim C2: the outcome of a request with a non-empty normalization is
the most severe outcome among its sub-actions (one violating sub-action
blocks the whole request), and concretely the chain
echo hello with rm -rf / evaluates to VIOLATION although its first
sub-action alone is ALLOWED. -/
theorem request_outcome_most_severe :
    (∀ (rules : List PolicyRule) (req : ActionRequest),
        normalizeAction req.raw_text ≠ [] →
        (∃ sub ∈ normalizeAction req.raw_text,
            evaluateRequest rules req =
              subActionVerdict rules (extractFacts req sub)) ∧
        (∀ sub ∈ normalizeAction req.raw_text,
            severity (subActionVerdict rules (extractFacts req sub)) ≤
              severity (evaluateRequest rules req)) ∧
        (∀ sub ∈ normalizeAction req.raw_text,
            subActionVerdict rules (extractFacts req sub) = Outcome.VIOLATION →
            evaluateRequest rules req = Outcome.VIOLATION)) ∧
    evaluateRequest chainRules chainReq = Outcome.VIOLATION ∧
    subActionVerdict chainRules (extractFacts chainReq "echo hello") =
      Outcome.ALLOWED := by
  refine ⟨?_, by decide, by decide⟩
  intro rules req hne
  have hnem : (normalizeAction req.raw_text).map
      (fun sub => subActionVerdict rules (extractFacts req sub)) ≠ [] := by
    intro hmapnil
    apply hne
    cases hl : normalizeAction req.raw_text with
    | nil => rfl
    | cons a t => rw [hl] at hmapnil; simp at hmapnil
  refine ⟨?_, ?_, ?_⟩
  · have hm := combineAll_mem _ hnem
    rcases List.mem_map.mp hm with ⟨sub, hsub, heq⟩
    exact ⟨sub, hsub, heq.symm⟩
  · intro sub hsub
    exact combineAll_most_severe _ _ (List.mem_map.mpr ⟨sub, hsub, rfl⟩)
  · intro sub hsub hv
    exact combineAll_violation _ (List.mem_map.mpr ⟨sub, hsub, hv⟩)

/-- Witness for claim C2 at the concrete chained request: the violating
second sub-action forces the whole chain to VIOLATION. -/
theorem request_outcome_most_severe_witness :
    evaluateRequest chainRules chainReq = Outcome.VIOLATION :=
  (request_outcome_most_severe.1 chainRules chainReq (by decide)).2.2
    "rm -rf /" (by decide) (by decide)

lemma forbidCond_iff (L : Layer) (rules : List PolicyRule) (facts : Facts) :
    forbidCond L rules facts = true ↔
    ∃ f ∈ rules, f.layer = L ∧ f.effect = Effect.FORBID ∧ fires f facts = true ∧
      ∀ e ∈ rules, e.layer = L → suppresses e f facts = false := by
  unfold forbidCond
  simp only [List.any_eq_true, List.mem_filter, decide_eq_true_eq, Bool.and_eq_true,
    Bool.not_eq_true']
  constructor
  · rintro ⟨f, ⟨hfmem, hfl⟩, ⟨⟨heff, hfires⟩, hno⟩⟩
    refine ⟨f, hfmem, hfl, heff, hfires, ?_⟩
    intro e hemem hel
    rw [List.any_eq_false] at hno
    exact Bool.eq_false_iff.mpr (hno e (List.mem_filter.mpr ⟨hemem, by simp [hel]⟩))
  · rintro ⟨f, hfmem, hfl, heff, hfires, hall⟩
    refine ⟨f, ⟨hfmem, hfl⟩, ⟨⟨heff, hfires⟩, ?_⟩⟩
    rw [List.any_eq_false]
    intro e hemem
    rcases List.mem_filter.mp hemem with ⟨hm, hdl⟩
    exact Bool.eq_false_iff.mp (hall e hm (by simpa using hdl))

lemma approvalCond_iff (L : Layer) (rules : List PolicyRule) (facts : Facts) :
    approvalCond L rules facts = true ↔
    ∃ r ∈ rules, r.layer = L ∧ r.effect = Effect.REQUIRE_APPROVAL ∧
      fires r facts = true := by
  unfold approvalCond
  simp only [List.any_eq_true, List.mem_filter, decide_eq_true_eq, Bool.and_eq_true]
  constructor
  · rintro ⟨r, ⟨hm, hl⟩, ⟨he, hf⟩⟩
    exact ⟨r, hm, hl, he, hf⟩
  · rintro ⟨r, hm, hl, he, hf⟩
    exact ⟨r, ⟨hm, hl⟩, ⟨he, hf⟩⟩

lemma layerVerdict_violation_iff (L : Layer) (rules : List PolicyRule) (facts : Facts) :
    layerVerdict L rules facts = Outcome.VIOLATION ↔
    forbidCond L rules facts = true := by
  unfold layerVerdict
  by_cases h1 : forbidCond L rules facts = true <;>
    by_cases h2 : approvalCond L rules facts = true <;>
      simp [h1, h2]

lemma layerVerdict_approval_iff (L : Layer) (rules : List PolicyRule) (facts : Facts) :
    layerVerdict L rules facts = Outcome.REQUIRES_APPROVAL ↔
    (forbidCond L rules facts = false ∧ approvalCond L rules facts = true) := by
  unfold layerVerdict
  by_cases h1 : forbidCond L rules facts = true <;>
    by_cases h2 : approvalCond L rules facts = true <;>
      simp_all

lemma layerVerdict_allowed_iff (L : Layer) (rules : List PolicyRule) (facts : Facts) :
    layerVerdict L rules facts = Outcome.ALLOWED ↔
    (forbidCond L rules facts = false ∧ approvalCond L rules facts = false) := by
  unfold layerVerdict
  by_cases h1 : forbidCond L rules facts = true <;>
    by_cases h2 : approvalCond L rules facts = true <;>
      simp_all

lemma filter_layer_cons_ne (e : PolicyRule) (rules : List PolicyRule) (L : Layer)
    (h : e.layer ≠ L) :
    (e :: rules).filter (fun r => decide (r.layer = L)) =
      rules.filter (fun r => decide (r.layer = L)) := by
  simp [List.filter_cons, h]

/-- Claim C3: within a layer, the verdict is VIOLATION exactly when some
FORBID rule of that layer fires and no same-layer ALLOW_EXCEPTION fires on
exactly the same fact set; otherwise REQUIRES_APPROVAL exactly when some
REQUIRE_APPROVAL rule of the layer fires; otherwise ALLOWED. A rule from a
different layer never affects the verdict (so an exception never
suppresses a forbid across layers), and suppression demands exact fact-set
equality, not overlap. -/
theorem layer_verdict_characterization :
    (∀ (L : Layer) (rules : List PolicyRule) (facts : Facts),
      (layerVerdict L rules facts = Outcome.VIOLATION ↔
        ∃ f ∈ rules, f.layer = L ∧ f.effect = Effect.FORBID ∧
          fires f facts = true ∧
          ∀ e ∈ rules, e.layer = L → suppresses e f facts = false) ∧
      (layerVerdict L rules facts = Outcome.REQUIRES_APPROVAL ↔
        ¬ (∃ f ∈ rules, f.layer = L ∧ f.effect = Effect.FORBID ∧
            fires f facts = true ∧
            ∀ e ∈ rules, e.layer = L → suppresses e f facts = false) ∧
        ∃ r ∈ rules, r.layer = L ∧ r.effect = Effect.REQUIRE_APPROVAL ∧
          fires r facts = true) ∧
      (layerVerdict L rules facts = Outcome.ALLOWED ↔
        ¬ (∃ f ∈ rules, f.layer = L ∧ f.effect = Effect.FORBID ∧
            fires f facts = true ∧
            ∀ e ∈ rules, e.layer = L → suppresses e f facts = false) ∧
        ¬ (∃ r ∈ rules, r.layer = L ∧ r.effect = Effect.REQUIRE_APPROVAL ∧
            fires r facts = true))) ∧
    (∀ (L : Layer) (e : PolicyRule) (rules : List PolicyRule) (facts : Facts),
      e.layer ≠ L →
      layerVerdict L (e :: rules) facts = layerVerdict L rules facts) ∧
    (∀ (e f : PolicyRule) (facts : Facts),
      setEqStr (predFields e.predicate) (predFields f.predicate) = false →
      suppresses e f facts = false) := by
  refine ⟨?_, ?_, ?_⟩
  · intro L rules facts
    have hf := forbidCond_iff L rules facts
    have ha := approvalCond_iff L rules facts
    have hfn : forbidCond L rules facts = false ↔
        ¬ (∃ f ∈ rules, f.layer = L ∧ f.effect = Effect.FORBID ∧
            fires f facts = true ∧
            ∀ e ∈ rules, e.layer = L → suppresses e f facts = false) := by
      rw [← hf]
      simp
    have han : approvalCond L rules facts = false ↔
        ¬ (∃ r ∈ rules, r.layer = L ∧ r.effect = Effect.REQUIRE_APPROVAL ∧
            fires r facts = true) := by
      rw [← ha]
      simp
    refine ⟨(layerVerdict_violation_iff L rules facts).trans hf, ?_, ?_⟩
    · rw [layerVerdict_approval_iff, hfn, ha]
    · rw [layerVerdict_allowed_iff, hfn, han]
  · intro L e rules facts h
    unfold layerVerdict forbidCond approvalCond
    rw [filter_layer_cons_ne e rules L h]
  · intro e f facts h
    simp [suppresses, h]

/-- A single always-firing FORBID rule in the regulatory layer. -/
def soleForbidRule : PolicyRule :=
  { id := "REG-001", layer := Layer.REGULATORY,
    predicate := RulePred.ptrue, effect := Effect.FORBID }

/-- Witness for claim C3: the verdict characterization applied to one
concrete layer rule set. -/
theorem layer_verdict_characterization_witness :
    layerVerdict Layer.REGULATORY [soleForbidRule] ([] : Facts) =
      Outcome.VIOLATION :=
  ((layer_verdict_characterization.1 Layer.REGULATORY [soleForbidRule]
      ([] : Facts)).1).mpr
    ⟨soleForbidRule, List.mem_singleton_self soleForbidRule, rfl, rfl, rfl,
     by
       intro e he hl
       have heq : e = soleForbidRule := by simpa using he
       subst heq
       decide⟩

lemma evalPred_none_of_undefined (p : RulePred) :
    ∀ (facts : Facts) (fld : String), fld ∈ predFields p →
      lookupFact facts fld = none → evalPred p facts = none := by
  induction p with
  | factEq f v =>
      intro facts fld hmem hlk
      simp only [predFields, List.mem_singleton] at hmem
      subst hmem
      simp [evalPred, hlk]
  | patternMatch f pat =>
      intro facts fld hmem hlk
      simp only [predFields, List.mem_singleton] at hmem
      subst hmem
      simp [evalPred, hlk]
  | pand p q ihp ihq =>
      intro facts fld hmem hlk
      simp only [predFields, List.mem_append] at hmem
      rcases hmem with h | h
      · have hp := ihp facts fld h hlk
        simp [evalPred, hp]
      · have hq := ihq facts fld h hlk
        rcases h1 : evalPred p facts with _ | a <;> simp [evalPred, h1, hq]
  | por p q ihp ihq =>
      intro facts fld hmem hlk
      simp only [predFields, List.mem_append] at hmem
      rcases hmem with h | h
      · have hp := ihp facts fld h hlk
        simp [evalPred, hp]
      · have hq := ihq facts fld h hlk
        rcases h1 : evalPred p facts with _ | a <;> simp [evalPred, h1, hq]
  | ptrue =>
      intro facts fld hmem hlk
      simp [predFields] at hmem

/-- Claim C5: a rule whose predicate references an undefined fact fails
closed — it always fires when its effect is FORBID or REQUIRE_APPROVAL and
never fires when its effect is ALLOW_EXCEPTION. -/
theorem malformed_rule_fail_closed (r : PolicyRule) (facts : Facts) (fld : String)
    (hmem : fld ∈ predFields r.predicate)
    (hundef : lookupFact facts fld = none) :
    (r.effect = Effect.FORBID → fires r facts = true) ∧
    (r.effect = Effect.REQUIRE_APPROVAL → fires r facts = true) ∧
    (r.effect = Effect.ALLOW_EXCEPTION → fires r facts = false) := by
  have hn := evalPred_none_of_undefined r.predicate facts fld hmem hundef
  unfold fires
  rw [hn]
  refine ⟨?_, ?_, ?_⟩ <;> intro he <;> simp [he]

/-- A FORBID rule referencing a fact no extractor defines. -/
def malformedForbid : PolicyRule :=
  { id := "ADV-901", layer := Layer.ADVERSARIAL,
    predicate := RulePred.factEq "mystery_fact" "1", effect := Effect.FORBID }

/-- Witness for claim C5: the malformed FORBID rule fires on an empty fact
mapping. -/
theorem malformed_rule_fail_closed_witness :
    fires malformedForbid ([] : Facts) = true :=
  (malformed_rule_fail_closed malformedForbid ([] : Facts) "mystery_fact"
      (by decide) rfl).1 rfl

/-- An auditable decision record (spec data model). -/
structure DecisionRec where
  outcome : Outcome
  matched_rules : List (Nat × String × Layer × Effect)
  explanation : String
deriving DecidableEq

/-- Stored decision for a request id, if any. -/
def lookupDecision : List (String × DecisionRec) → String → Option DecisionRec
  | [], _ => none
  | (k, d) :: rest, rid => if k = rid then some d else lookupDecision rest rid

/-- Number of records stored for a request id. -/
def countDecision (store : List (String × DecisionRec)) (rid : String) : Nat :=
  (store.filter (fun kv => decide (kv.1 = rid))).length

/-- Modelled from the spec: the Decision Recorder. Recording a fresh
request id appends; re-recording an identical Decision is a no-op;
a differing Decision for a recorded id is an integrity error and the
stored record is never overwritten. -/
def recordDecision (store : List (String × DecisionRec)) (rid : String)
    (d : DecisionRec) : Except String (List (String × DecisionRec)) :=
  match lookupDecision store rid with
  | none => Except.ok ((rid, d) :: store)
  | some d0 =>
      if d0 = d then Except.ok store
      else Except.error "IntegrityError"

lemma countDecision_of_lookup_none (store : List (String × DecisionRec))
    (rid : String) (h : lookupDecision store rid = none) :
    countDecision store rid = 0 := by
  induction store with
  | nil => rfl
  | cons kv rest ih =>
      rcases kv with ⟨k, d⟩
      unfold lookupDecision at h
      by_cases hk : k = rid
      · rw [if_pos hk] at h
        cases h
      · rw [if_neg hk] at h
        unfold countDecision at ih ⊢
        simp [List.filter_cons, hk, ih h]

lemma countDecision_cons_self (store : List (String × DecisionRec))
    (rid : String) (d : DecisionRec) :
    countDecision ((rid, d) :: store) rid = countDecision store rid + 1 := by
  unfold countDecision
  simp [List.filter_cons]

/-- Claim C6: recording is idempotent under retry — recording the same
(request id, Decision) pair again is a no-op leaving exactly one stored
record — while a differing Decision for an already-recorded request id is
rejected as an integrity error and the stored Decision is never
overwritten. -/
theorem decision_recording_idempotent (store : List (String × DecisionRec))
    (rid : String) (d : DecisionRec) (s1 : List (String × DecisionRec))
    (h : recordDecision store rid d = Except.ok s1) :
    recordDecision s1 rid d = Except.ok s1 ∧
    lookupDecision s1 rid = some d ∧
    (∀ d2 : DecisionRec, d2 ≠ d →
      recordDecision s1 rid d2 = Except.error "IntegrityError") ∧
    (lookupDecision store rid = none → countDecision s1 rid = 1) := by
  rcases hl : lookupDecision store rid with _ | d0
  · simp only [recordDecision, hl, Except.ok.injEq] at h
    subst h
    have hlk : lookupDecision ((rid, d) :: store) rid = some d := by
      unfold lookupDecision
      rw [if_pos rfl]
    refine ⟨?_, hlk, ?_, ?_⟩
    · simp [recordDecision, hlk]
    · intro d2 hne
      simp [recordDecision, hlk, Ne.symm hne]
    · intro _
      rw [countDecision_cons_self, countDecision_of_lookup_none store rid hl]
  · simp only [recordDecision, hl] at h
    by_cases hd : d0 = d
    · rw [if_pos hd] at h
      injection h with hs
      subst hs
      subst hd
      refine ⟨?_, hl, ?_, ?_⟩
      · simp [recordDecision, hl]
      · intro d2 hne
        simp [recordDecision, hl, Ne.symm hne]
      · intro hn
        cases hn
    · rw [if_neg hd] at h
      cases h

/-- A concrete recorded decision. -/
def exDecision : DecisionRec :=
  { outcome := Outcome.ALLOWED, matched_rules := [], explanation := "ok" }

/-- The store holding exactly that decision. -/
def exStore1 : List (String × DecisionRec) := [("r1", exDecision)]

/-- Witness for claim C6 at a concrete store. -/
theorem decision_recording_idempotent_witness :
    recordDecision exStore1 "r1" exDecision = Except.ok exStore1 ∧
    countDecision exStore1 "r1" = 1 := by
  have h := decision_recording_idempotent [] "r1" exDecision exStore1 rfl
  exact ⟨h.1, h.2.2.2 rfl⟩

/-- Mutable world surrounding an evaluation: the decision store. Making it
explicit lets purity be stated as world-independence. -/
structure World where
  decisions : List (String × DecisionRec)
deriving DecidableEq

/-- The fact-extraction step run against an explicit world. -/
def runExtractFacts (w : World) (req : ActionRequest) (sub : String) :
    Facts × World :=
  (extractFacts req sub, w)

/-- Whole-request evaluation run against an explicit world. -/
def runEvaluate (w : World) (rules : List PolicyRule) (req : ActionRequest) :
    Outcome × World :=
  (evaluateRequest rules req, w)

/-- Claim C7: the Fact Extractor is a pure, deterministic function of the
request and its injected context — its output is independent of all
surrounding mutable state and it changes nothing, so the resulting
decision is reproducible and likewise world-independent. -/
theorem fact_extractor_pure (w1 w2 : World) (rules : List PolicyRule)
    (req : ActionRequest) (sub : String) :
    (runExtractFacts w1 req sub).1 = (runExtractFacts w2 req sub).1 ∧
    (runExtractFacts w1 req sub).2 = w1 ∧
    (runEvaluate w1 rules req).1 = (runEvaluate w2 rules req).1 ∧
    (runEvaluate w1 rules req).2 = w1 :=
  ⟨rfl, rfl, rfl, rfl⟩

/-!
Embedding of the compliance customization UI (ComplianceCustomize.jsx) and
the Platform/SRE Safety form (SreSafety.jsx).
-/

/-- The three rule types of the customization UI. -/
inductive RuleType where
  | allowed
  | forbidden
  | required
deriving DecidableEq

/-- The rules state of the customization component: one list per type. -/
structure RuleSets where
  allowed : List String
  forbidden : List String
  required : List String
deriving DecidableEq

/-- Read one rule list by type. -/
def getRules (rs : RuleSets) : RuleType → List String
  | RuleType.allowed => rs.allowed
  | RuleType.forbidden => rs.forbidden
  | RuleType.required => rs.required

/-- handleDeleteRule from ComplianceCustomize.jsx: copy the rules object
and keep, in the chosen type, only entries different from the value. -/
def handleDeleteRule (rs : RuleSets) (t : RuleType) (v : String) : RuleSets :=
  match t with
  | RuleType.allowed =>
      { rs with allowed := rs.allowed.filter (fun r => !(r == v)) }
  | RuleType.forbidden =>
      { rs with forbidden := rs.forbidden.filter (fun r => !(r == v)) }
  | RuleType.required =>
      { rs with required := rs.required.filter (fun r => !(r == v)) }

/-- Claim C8: deleting a value from one rule type removes every occurrence
of that value from that type and leaves the two other rule lists
unchanged. -/
theorem delete_rule_removes_value_frames_others (rs : RuleSets) (t : RuleType)
    (v : String) :
    v ∉ getRules (handleDeleteRule rs t v) t ∧
    (∀ t2 : RuleType, t2 ≠ t →
      getRules (handleDeleteRule rs t v) t2 = getRules rs t2) := by
  constructor
  · cases t <;> simp [handleDeleteRule, getRules, List.mem_filter]
  · intro t2 hne
    cases t <;> cases t2 <;>
      first
        | exact absurd rfl hne
        | simp [handleDeleteRule, getRules]

/-- A concrete rules state with a duplicated forbidden entry. -/
def exRuleSets : RuleSets :=
  { allowed := ["scale staging"], forbidden := ["drop db", "drop db"],
    required := ["mfa"] }

/-- Witness for claim C8 at the concrete rules state. -/
theorem delete_rule_removes_value_frames_others_witness :
    "drop db" ∉
      getRules (handleDeleteRule exRuleSets RuleType.forbidden "drop db")
        RuleType.forbidden ∧
    getRules (handleDeleteRule exRuleSets RuleType.forbidden "drop db")
        RuleType.allowed = getRules exRuleSets RuleType.allowed :=
  ⟨(delete_rule_removes_value_frames_others exRuleSets RuleType.forbidden
      "drop db").1,
   (delete_rule_removes_value_frames_others exRuleSets RuleType.forbidden
      "drop db").2 RuleType.allowed (by decide)⟩

/-- One reported violation entry of the simulated query run. -/
structure UiViolation where
  command : String
  rule : String
deriving DecidableEq

/-- The response object built by the simulated query run. -/
structure RunResponse where
  query : String
  violations : List UiViolation
deriving DecidableEq

/-- runQuery from ComplianceCustomize.jsx: an all-whitespace query is
ignored; otherwise the response reports one fixed violation mentioning the
first forbidden rule whenever the forbidden list is non-empty. -/
def runQuery (query : String) (rs : RuleSets) : Option RunResponse :=
  if trimStr query == "" then none
  else
    some { query := query,
           violations :=
             match rs.forbidden with
             | [] => []
             | f :: _ => [{ command := "delete-user", rule := f }] }

/-- Claim C9: whenever a test query produces a response, its violations
list is non-empty exactly when the forbidden list is non-empty; when
non-empty it is exactly one entry with command delete-user and the first
forbidden rule, independent of the query text. -/
theorem run_query_violations_shape (q : String) (rs : RuleSets)
    (r : RunResponse) (h : runQuery q rs = some r) :
    (r.violations ≠ [] ↔ rs.forbidden ≠ []) ∧
    (∀ f rest, rs.forbidden = f :: rest →
      r.violations = [{ command := "delete-user", rule := f }]) ∧
    (∀ (q2 : String) (r2 : RunResponse), runQuery q2 rs = some r2 →
      r2.violations = r.violations) := by
  unfold runQuery at h
  by_cases ht : (trimStr q == "") = true
  · rw [if_pos ht] at h
    cases h
  · rw [if_neg ht] at h
    injection h with hr
    subst hr
    refine ⟨?_, ?_, ?_⟩
    · cases hf : rs.forbidden <;> simp [hf]
    · intro f rest hf
      simp [hf]
    · intro q2 r2 h2
      unfold runQuery at h2
      by_cases ht2 : (trimStr q2 == "") = true
      · rw [if_pos ht2] at h2
        cases h2
      · rw [if_neg ht2] at h2
        injection h2 with hr2
        subst hr2
        rfl

/-- The concrete response the simulated run produces on the example rules
state. -/
def exResponse : RunResponse :=
  { query := "restart payment-gateway",
    violations := [{ command := "delete-user", rule := "drop db" }] }

/-- Witness for claim C9 at a concrete query and rules state. -/
theorem run_query_violations_shape_witness :
    exResponse.violations = [{ command := "delete-user", rule := "drop db" }] :=
  (run_query_violations_shape "restart payment-gateway" exRuleSets exResponse
      (by decide)).2.1 "drop db" ["drop db"] rfl

/-- Request body posted by the SRE-safety rule save. -/
structure SreRuleBody where
  service : String
  env : String
  action : String
  risk : String
  needs_approval : Bool
deriving DecidableEq

/-- JavaScript-style fallback for string fields: the empty string is the
only falsy string, so it is replaced by the default. -/
def orDefault (s dflt : String) : String :=
  if s == "" then dflt else s

/-- The body built by the Save Risk Rule handler in SreSafety.jsx. -/
def buildSreBody (service env action risk : String) (needs_approval : Bool) :
    SreRuleBody :=
  { service := orDefault service "default-service",
    env := orDefault env "prod",
    action := orDefault action "restart",
    risk := orDefault risk "LOW",
    needs_approval := needs_approval }

/-- Claim C10: the posted SRE-safety body substitutes defaults for empty
fields (default-service, prod, restart, LOW), passes non-empty fields
through verbatim, sends needs_approval exactly as the checkbox state, and
a fully empty form still yields a concrete rule body. -/
theorem sre_body_defaults (service env action risk : String) (b : Bool) :
    (service = "" → (buildSreBody service env action risk b).service =
      "default-service") ∧
    (service ≠ "" → (buildSreBody service env action risk b).service =
      service) ∧
    (env = "" → (buildSreBody service env action risk b).env = "prod") ∧
    (env ≠ "" → (buildSreBody service env action risk b).env = env) ∧
    (action = "" → (buildSreBody service env action risk b).action =
      "restart") ∧
    (action ≠ "" → (buildSreBody service env action risk b).action =
      action) ∧
    (risk = "" → (buildSreBody service env action risk b).risk = "LOW") ∧
    (risk ≠ "" → (buildSreBody service env action risk b).risk = risk) ∧
    (buildSreBody service env action risk b).needs_approval = b ∧
    buildSreBody "" "" "" "" b =
      { service := "default-service", env := "prod", action := "restart",
        risk := "LOW", needs_approval := b } := by
  refine ⟨?_, ?_, ?_, ?_, ?_, ?_, ?_, ?_, rfl, rfl⟩ <;>
    intro h <;>
      simp [buildSreBody, orDefault, h]

/-- Witness for claim C10: the fully empty form posts the default rule. -/
theorem sre_body_defaults_witness :
    (buildSreBody "" "payment" "" "" true).service = "default-service" ∧
    (buildSreBody "" "payment" "" "" true).env = "payment" ∧
    (buildSreBody "" "payment" "" "" true).needs_approval = true :=
  ⟨(sre_body_defaults "" "payment" "" "" true).1 rfl,
   (sre_body_defaults "" "payment" "" "" true).2.2.2.1 (by decide),
   (sre_body_defaults "" "payment" "" "" true).2.2.2.2.2.2.2.2.1⟩
